import Mathlib

/-!
# domain_exporter: expiry-resolution pipeline of `app.go`

A shallow embedding of `isLatinDomain`, `getExpiryTime` and the `/metrics`
handler loop of `app.go`.

Go strings are modelled as `List Char`: the sequence of runes of a string that
holds valid UTF-8 (zone names come out of `json.Unmarshal`, which only produces
valid UTF-8; the output of `whois` is taken to be text in UTF-8).  Because `.`
and the line feed are ASCII, splitting the rune sequence at them is the same
as splitting the bytes.

What the program calls but does not define is modelled from its documented
behaviour: `strings.Split`, `strings.TrimSpace` and `time.Parse` of the Go
library, and the utilities `grep` and `awk` of the shell pipeline.  The
pipeline is modelled where its behaviour is fixed: for a domain that is one
plain shell word, so that `bash` runs the three commands that are written, and
for a WHOIS record that `grep` reads as text.  Everywhere else (a name that
the shell reads as more than a word, a record with a NUL byte and a matching
line) the output is left to the environment.  The WHOIS service, the shell and
the process runner are parameters (`Env`).  A call of `getExpiryTime` carries
the seconds it spent in `time.Sleep`, and a run-time panic is an outcome of
its own.
-/

namespace DomainExporter

/-- A Go string, viewed as its sequence of runes. -/
abbrev GoString := List Char

/-! ## `isLatinDomain` -/

/-- The constant `unicode.MaxLatin1`, the rune U+00FF. -/
def maxLatin1 : Nat := 0xFF

/-- `isLatinDomain` of `app.go`: the `range` loop returns `false` at the first
rune above `unicode.MaxLatin1` and `true` when the string is exhausted. -/
def isLatinDomain : GoString → Bool
  | [] => true
  | r :: rest => if r.toNat > maxLatin1 then false else isLatinDomain rest

/-! ## `strings.Split` with a one-rune separator -/

/-- `strings.Split(s, sep)` for a separator of one rune: the pieces between
the occurrences of the separator, one more piece than there are separators
(so the empty string splits into one empty piece). -/
def split (sep : Char) : GoString → List GoString
  | [] => [[]]
  | c :: cs =>
    if c = sep then [] :: split sep cs
    else
      match split sep cs with
      | [] => [[c]]
      | piece :: pieces => (c :: piece) :: pieces

/-! ## `strings.TrimSpace` -/

/-- `unicode.IsSpace`: the Latin-1 white space `\t \n \v \f \r`, space, U+0085
and U+00A0, and the other runes of the `White_Space` property. -/
def isSpace (c : Char) : Bool :=
  let n := c.toNat
  (0x09 ≤ n && n ≤ 0x0D) || n == 0x20 || n == 0x85 || n == 0xA0 || n == 0x1680 ||
    (0x2000 ≤ n && n ≤ 0x200A) || n == 0x2028 || n == 0x2029 || n == 0x202F ||
    n == 0x205F || n == 0x3000

/-- `strings.TrimSpace`: the string without its leading and trailing white
space. -/
def trimSpace (s : GoString) : GoString :=
  (s.rdropWhile isSpace).dropWhile isSpace

/-! ## The shell pipeline `whois D | grep 'MARKER' | awk '{print FIELD}'` -/

/-- The lines of a text as `grep` and `awk` read them: the pieces ended by a
line feed, and a last piece without one when it is not empty. -/
def textLines : GoString → List GoString
  | [] => []
  | c :: cs =>
    if c = '\n' then [] :: textLines cs
    else
      match textLines cs with
      | [] => [[c]]
      | line :: more => (c :: line) :: more

/-- Whether `pat` occurs in the text as a substring.  Neither marker of
`app.go` holds a character that is special in a basic regular expression, so
this is when `grep 'pat'` selects the line. -/
def hasSubstr (pat : GoString) : GoString → Bool
  | [] => pat.isPrefixOf []
  | c :: cs => pat.isPrefixOf (c :: cs) || hasSubstr pat cs

/-- The lines that hold the marker, in input order. -/
def matchingLines (pat : GoString) (ls : List GoString) : List GoString :=
  ls.filter (hasSubstr pat)

/-- Whether the text holds a NUL byte: `grep` may then take its input for a
binary file and print no line of it. -/
def holdsNul (s : GoString) : Bool := s.any (fun c => c.toNat == 0)

/-- The characters of a plain word: ASCII letters and digits, `.`, `-` and
`_`.  None of them is special to the shell. -/
def isWordChar (c : Char) : Bool :=
  let n := c.toNat
  (48 ≤ n && n ≤ 57) || (65 ≤ n && n ≤ 90) || (97 ≤ n && n ≤ 122) ||
    c = '.' || c = '-' || c = '_'

/-- Whether the shell reads the text as one word, unchanged: it is not empty
and holds plain characters only. -/
def isShellWord (s : GoString) : Bool := !s.isEmpty && s.all isWordChar

/-- The characters that separate awk fields under the default `FS` (POSIX:
blanks, that is space and tab, and the line feed). -/
def isBlank (c : Char) : Bool := c = ' ' || c = '\t' || c = '\n'

/-- The fields `$1 … $NF` of an awk record under the default `FS`: the maximal
runs of characters that are not blanks. -/
def awkFields : GoString → List GoString
  | [] => []
  | c :: cs =>
    if isBlank c then awkFields cs
    else
      match cs with
      | [] => [[c]]
      | d :: _ =>
        if isBlank d then [c] :: awkFields cs
        else
          match awkFields cs with
          | [] => [[c]]
          | f :: fs => (c :: f) :: fs

/-- The field an awk program of `app.go` prints: `$2` or `$NF`. -/
inductive AwkField where
  | second
  | last
  deriving DecidableEq, Repr

/-- Value of the field reference on one record: `$2` is empty when the record
has fewer than two fields; `$NF` is the last field, and `$0` (the record) when
there is no field at all. -/
def AwkField.select (sel : AwkField) (record : GoString) : GoString :=
  match sel with
  | .second => (awkFields record).getD 1 []
  | .last =>
    match (awkFields record).getLast? with
    | some f => f
    | none => record

/-- `awk '{print FIELD}'`: for every record the selected field followed by the
output record separator, a line feed. -/
def awkPrint (sel : AwkField) (records : List GoString) : GoString :=
  (records.map (fun r => sel.select r ++ ['\n'])).flatten

/-- The command line built by `getExpiryTime`, kept as its three stages. -/
structure WhoisCmd where
  /-- Argument of `whois`. -/
  domain : GoString
  /-- Pattern of `grep`. -/
  marker : GoString
  /-- Field printed by `awk`. -/
  field : AwkField
  deriving DecidableEq

/-- The awk program text of a field reference. -/
def AwkField.text : AwkField → GoString
  | .second => "$2".toList
  | .last => "$NF".toList

/-- The string handed to `bash -c`. -/
def WhoisCmd.text (cmd : WhoisCmd) : GoString :=
  "whois ".toList ++ cmd.domain ++ " | grep '".toList ++ cmd.marker ++
    "' | awk '\x7bprint ".toList ++ cmd.field.text ++ "\x7d'".toList

/-- The marker of the `.ru` registry. -/
def paidTillMarker : GoString := "paid-till".toList

/-- The marker of the other registries. -/
def registryExpiryMarker : GoString := "Registry Expiry Date".toList

/-- The `switch tld` of `getExpiryTime`: the command for the case `"ru"` and
the command of the `default` case. -/
def whoisCmd (tld domain : GoString) : WhoisCmd :=
  if tld = "ru".toList then ⟨domain, paidTillMarker, .second⟩
  else ⟨domain, registryExpiryMarker, .last⟩

/-- What lies outside the program: the WHOIS service, the shell and the
process runner. -/
structure Env where
  /-- Standard output of `whois` run with this one argument, whatever the
  lookup prints (a record, a refusal, nothing). -/
  whois : GoString → GoString
  /-- Whether `exec.Command("bash", "-c", cmd).Output()` returns an error for
  the command of this domain (bash cannot be started, or the command exits
  non-zero). -/
  execFails : GoString → Bool
  /-- Standard output of `bash -c text` for a command line whose domain is not
  one plain word, so that the shell runs something else than the pipeline
  that is written. -/
  shell : GoString → GoString
  /-- Standard output of `grep 'marker' | awk '{print FIELD}'` for an input
  that holds a NUL byte and a line with the marker: which lines `grep` still
  prints depends on the `grep` at hand. -/
  binaryStdout : GoString → AwkField → GoString → GoString

/-- Standard output of the command line.  For a domain that is one plain word
the shell runs `whois domain | grep 'marker' | awk '{print FIELD}'`: on a
record without NUL byte, or without any line that holds the marker, `grep`
prints the lines that hold the marker and `awk` its field of each of them. -/
def WhoisCmd.stdout (env : Env) (cmd : WhoisCmd) : GoString :=
  if isShellWord cmd.domain then
    let record := env.whois cmd.domain
    let found := matchingLines cmd.marker (textLines record)
    if holdsNul record && !found.isEmpty then env.binaryStdout cmd.marker cmd.field record
    else awkPrint cmd.field found
  else env.shell cmd.text

/-- The `.Output()` call: an error, or the bytes of standard output. -/
def WhoisCmd.output (env : Env) (cmd : WhoisCmd) : Option GoString :=
  if env.execFails cmd.domain then none else some (cmd.stdout env)

/-! ## `time.Parse(time.RFC3339, s)` and `Time.Unix`

The layout `2006-01-02T15:04:05Z07:00` as the parser of Go's `time` package
reads it, chunk by chunk (`parse` of `time/format.go`): besides
`YYYY-MM-DDTHH:MM:SSZ` it accepts an hour of one digit, a fraction of a second
after the seconds and a numeric offset in place of `Z`.  Only the seconds
since the epoch are kept: the fraction is below one second and does not reach
`Unix()`.  The seconds are computed as `Date` of `time/time.go` does, from the
absolute epoch of the package. -/

/-- `isDigit`: an ASCII decimal digit. -/
def isDigit (c : Char) : Bool := 48 ≤ c.toNat && c.toNat ≤ 57

/-- Value of a decimal digit. -/
def digitVal (c : Char) : Nat := c.toNat - 48

/-- The chunk `2006`: four digits. -/
def getYear : GoString → Option (Nat × GoString)
  | a :: b :: c :: d :: rest =>
    if isDigit a && isDigit b && isDigit c && isDigit d then
      some (digitVal a * 1000 + digitVal b * 100 + digitVal c * 10 + digitVal d, rest)
    else none
  | _ => none

/-- `getnum(s, fixed)`: a number of one or two digits, of exactly two when
`fixed`. -/
def getnum (isFixed : Bool) : GoString → Option (Nat × GoString)
  | [] => none
  | [a] => if isDigit a && !isFixed then some (digitVal a, []) else none
  | a :: b :: rest =>
    if isDigit a then
      if isDigit b then some (digitVal a * 10 + digitVal b, rest)
      else if isFixed then none else some (digitVal a, b :: rest)
    else none

/-- `skip(value, prefix)` for a literal of one character. -/
def skip (lit : Char) : GoString → Option GoString
  | [] => none
  | c :: rest => if c = lit then some rest else none

/-- A fraction of a second in the input that the layout does not name: a
period or comma and the digits after it are consumed. -/
def skipFraction : GoString → GoString
  | c :: d :: rest =>
    if (c = '.' || c = ',') && isDigit d then rest.dropWhile isDigit else c :: d :: rest
  | s => s

/-- The chunk `Z07:00`: `Z` for UTC, or a sign, two digits, a colon and two
digits; the offset east of UTC in seconds. -/
def getZone : GoString → Option (Int × GoString)
  | 'Z' :: rest => some (0, rest)
  | sign :: h1 :: h2 :: colon :: m1 :: m2 :: rest =>
    if colon = ':' && isDigit h1 && isDigit h2 && isDigit m1 && isDigit m2 then
      let hr := digitVal h1 * 10 + digitVal h2
      let mm := digitVal m1 * 10 + digitVal m2
      if hr > 24 || mm > 60 then none
      else if sign = '+' then some (((hr * 60 + mm) * 60 : Nat), rest)
      else if sign = '-' then some (-(((hr * 60 + mm) * 60 : Nat) : Int), rest)
      else none
    else none
  | _ => none

/-- `isLeap`. -/
def isLeap (year : Nat) : Bool := year % 4 == 0 && (year % 100 != 0 || year % 400 == 0)

/-- The table `daysBefore`: days of a non-leap year before the month begins. -/
def daysBefore : List Nat := [0, 31, 59, 90, 120, 151, 181, 212, 243, 273, 304, 334, 365]

/-- `daysIn(m, year)`. -/
def daysIn (m year : Nat) : Nat :=
  if m = 2 && isLeap year then 29 else daysBefore.getD m 0 - daysBefore.getD (m - 1) 0

/-- Year zero of the absolute calendar of package `time`, negated:
`absoluteZeroYear = -292277022399`. -/
def absoluteYearShift : Nat := 292277022399

/-- `daysSinceEpoch(year)`: days from the absolute epoch to the first of
January of the year, by cycles of 400, 100 and 4 years. -/
def daysSinceEpoch (year : Nat) : Nat :=
  let y := year + absoluteYearShift
  let n400 := y / 400
  let y := y - 400 * n400
  let n100 := y / 100
  let y := y - 100 * n100
  let n4 := y / 4
  let y := y - 4 * n4
  146097 * n400 + 36524 * n100 + 1461 * n4 + 365 * y

/-- The sum `absoluteToInternal + internalToUnix` of package `time`. -/
def absoluteToUnix : Int := -9223371966579724800 - 62135596800

/-- `time.Date(year, month, day, hour, min, sec, 0, time.UTC).Unix()` for
fields that are in range (no normalisation is needed). -/
def unixDate (year month day hour min sec : Nat) : Int :=
  let d := daysSinceEpoch year + daysBefore.getD (month - 1) 0 +
    (if isLeap year && month ≥ 3 then 1 else 0) + (day - 1)
  let abs := d * 86400 + (hour * 3600 + min * 60 + sec)
  (abs : Int) + absoluteToUnix

/-- The chunks `2006-01-02`: year, month and day.  The month is checked against
1 to 12 here, the day against the month only at the end of the parse. -/
def getDate (value : GoString) : Option (Nat × Nat × Nat × GoString) :=
  (getYear value).bind fun yv =>
  (skip '-' yv.2).bind fun v =>
  (getnum true v).bind fun mv =>
  if mv.1 = 0 || 12 < mv.1 then none else
  (skip '-' mv.2).bind fun v =>
  (getnum true v).bind fun dv => some (yv.1, mv.1, dv.1, dv.2)

/-- The chunks `15:04:05`: an hour of one or two digits below 24, minutes and
seconds of two digits below 60. -/
def getClock (value : GoString) : Option (Nat × Nat × Nat × GoString) :=
  (getnum false value).bind fun hv =>
  if 24 ≤ hv.1 then none else
  (skip ':' hv.2).bind fun v =>
  (getnum true v).bind fun mv =>
  if 60 ≤ mv.1 then none else
  (skip ':' mv.2).bind fun v =>
  (getnum true v).bind fun sv =>
  if 60 ≤ sv.1 then none else some (hv.1, mv.1, sv.1, sv.2)

/-- `time.Parse(time.RFC3339, value)` followed by `.Unix()`; `none` is a
parse error.  After the last chunk no text may be left, and the day must
exist in its month. -/
def parseRFC3339 (value : GoString) : Option Int :=
  (getDate value).bind fun date =>
  (skip 'T' date.2.2.2).bind fun v =>
  (getClock v).bind fun clock =>
  (getZone (skipFraction clock.2.2.2)).bind fun zone =>
  if zone.2 ≠ [] then none
  else if date.2.2.1 < 1 || date.2.2.1 > daysIn date.2.1 date.1 then none
  else some (unixDate date.1 date.2.1 date.2.2.1 clock.1 clock.2.1 clock.2.2.1 - zone.1)

/-! ## `getExpiryTime` -/

/-- The two `return 0, err` of `getExpiryTime`. -/
inductive LookupError where
  /-- The error of `exec.Command(...).Output()`. -/
  | exec
  /-- The error of `time.Parse`. -/
  | parse
  deriving DecidableEq, Repr

/-- How a call of `getExpiryTime` ends. -/
inductive Outcome where
  /-- Line 138: `return expiryDate.Unix(), nil`. -/
  | value (unix : Int)
  /-- Lines 128 and 133: `return 0, err`. -/
  | error (e : LookupError)
  /-- Line 116: run-time panic, index out of range. -/
  | panic
  deriving DecidableEq, Repr

/-- A finished call: how it ended and the seconds it spent in `time.Sleep`. -/
structure Call where
  outcome : Outcome
  slept : Nat
  deriving DecidableEq, Repr

/-- Lines 131 to 138 of `getExpiryTime`: `strings.TrimSpace`, `time.Parse`,
the error return, `time.Sleep(1 * time.Second)` and the final return. -/
def parseOutput (out : GoString) : Call :=
  match parseRFC3339 (trimSpace out) with
  | none => ⟨.error .parse, 0⟩
  | some unix => ⟨.value unix, 1⟩

/-- Lines 126 to 138 of `getExpiryTime`: the command is run, and its output
parsed. -/
def WhoisCmd.lookup (env : Env) (cmd : WhoisCmd) : Call :=
  match cmd.output env with
  | none => ⟨.error .exec, 0⟩
  | some out => parseOutput out

/-- `getExpiryTime` of `app.go`: `strings.Split(domain, ".")[1]` panics when
the split has one piece only. -/
def getExpiryTime (env : Env) (domain : GoString) : Call :=
  match (split '.' domain)[1]? with
  | none => ⟨.panic, 0⟩
  | some tld => (whoisCmd tld domain).lookup env

/-! ## The `/metrics` handler -/

/-- `Zone` of `app.go`. -/
structure Zone where
  ID : GoString
  Name : GoString
  Status : GoString
  deriving DecidableEq

/-- Decimal digits of a natural number. -/
def fmtNat (n : Nat) : GoString := Nat.toDigits 10 n

/-- The verb `%d` on an `int64`. -/
def fmtInt : Int → GoString
  | .ofNat n => fmtNat n
  | .negSucc n => '-' :: fmtNat (n + 1)

/-- The text of `fmt.Fprintf(w, "domain_expiry_time{domain=\"%s\"} %d\n",
zone.Name, expiryTime)`. -/
def metricLine (name : GoString) (expiryTime : Int) : GoString :=
  "domain_expiry_time\x7bdomain=\"".toList ++ name ++ "\"\x7d ".toList ++
    fmtInt expiryTime ++ ['\n']

/-- What a scrape has done so far. -/
structure Scrape where
  /-- Bytes written to the response. -/
  body : GoString
  /-- The domains of the `log.Printf` calls of the loop, with their errors. -/
  failures : List (GoString × LookupError)
  /-- Seconds spent in `time.Sleep`. -/
  slept : Nat
  /-- Whether a run-time panic has unwound the handler. -/
  panicked : Bool
  deriving DecidableEq

/-- A scrape that has done nothing yet. -/
def Scrape.start : Scrape := ⟨[], [], 0, false⟩

/-- The loop `for _, zone := range zones` of the handler. -/
def scrapeLoop (env : Env) : List Zone → Scrape → Scrape
  | [], s => s
  | zone :: zones, s =>
    if !isLatinDomain zone.Name then scrapeLoop env zones s
    else
      let call := getExpiryTime env zone.Name
      match call.outcome with
      | .panic => { s with slept := s.slept + call.slept, panicked := true }
      | .error e =>
        scrapeLoop env zones
          { s with failures := s.failures ++ [(zone.Name, e)], slept := s.slept + call.slept }
      | .value expiryTime =>
        scrapeLoop env zones
          { s with body := s.body ++ metricLine zone.Name expiryTime,
                   slept := s.slept + call.slept }

/-- The handler of `/metrics`, given what `fetchZones` returned (`none` for an
error, after which the handler only logs and returns). -/
def metricsHandler (env : Env) (fetched : Option (List Zone)) : Scrape :=
  match fetched with
  | none => Scrape.start
  | some zones => scrapeLoop env zones Scrape.start

/-! ## Notions of the specification -/

/-- The top-level label as section 4.1 of the specification defines it: the
dot-separated token that follows the first `.` of the domain. -/
def specTopLabel (domain : GoString) : GoString :=
  ((domain.dropWhile (fun c => c != '.')).drop 1).takeWhile (fun c => c != '.')

/-- A WHOIS service that prints the record it is made with for every query,
where the command can always be run.  Outside the modelled pipeline the
examples need no output, so it is empty. -/
def envOf (whois : GoString → GoString) : Env where
  whois := whois
  execFails := fun _ => false
  shell := fun _ => []
  binaryStdout := fun _ _ _ => []

/-- A WHOIS service that knows `a.com` (standard convention) and `b.ru`
(paid-till convention) and prints nothing for any other domain. -/
def exampleEnv : Env :=
  envOf fun d =>
    if d = "a.com".toList then
      "Domain Name: A.COM\nRegistry Expiry Date: 2030-01-15T00:00:00Z\nRegistrar: Example\n".toList
    else if d = "b.ru".toList then
      "domain: B.RU\npaid-till: 2028-06-01T00:00:00Z  extra\nsource: TCI\n".toList
    else []

/-- A WHOIS service that prints nothing (the lookup is refused). -/
def silentEnv : Env := envOf fun _ => []

/-- A process runner that cannot run the command. -/
def brokenEnv : Env where
  whois := fun _ => []
  execFails := fun _ => true
  shell := fun _ => []
  binaryStdout := fun _ _ _ => []

/-- A zone with the given name. -/
def zoneNamed (name : String) : Zone := ⟨[], name.toList, "active".toList⟩

/-! ## Lemmas on `isLatinDomain` and `split` -/

theorem isLatinDomain_eq_true_iff (domain : GoString) :
    isLatinDomain domain = true ↔ ∀ c ∈ domain, c.toNat ≤ maxLatin1 := by
  induction domain with
  | nil => simp [isLatinDomain]
  | cons r rest ih =>
    by_cases h : r.toNat > maxLatin1
    · simp only [isLatinDomain, h, if_true, List.mem_cons, forall_eq_or_imp]
      constructor
      · intro hf; cases hf
      · intro hall; omega
    · simp only [isLatinDomain, h, if_false, List.mem_cons, forall_eq_or_imp, ih]
      constructor
      · intro hall; exact ⟨by omega, hall⟩
      · intro hall; exact hall.2

/-- The first piece of a split is the text before the first separator, and
the other pieces are the split of the text after it. -/
theorem split_eq (sep : Char) (s : GoString) :
    split sep s = s.takeWhile (fun c => c != sep) ::
      (if sep ∈ s then split sep ((s.dropWhile (fun c => c != sep)).drop 1) else []) := by
  induction s with
  | nil => simp [split]
  | cons c cs ih =>
    by_cases h : c = sep
    · subst h
      simp [split, List.takeWhile, List.dropWhile]
    · have hne : (c != sep) = true := by simpa using h
      have hne2 : ¬ sep = c := fun e => h e.symm
      simp only [split, h, if_false, List.takeWhile, hne, List.dropWhile, List.mem_cons, hne2,
        false_or]
      rw [ih]

theorem split_get_one (domain : GoString) (h : '.' ∈ domain) :
    (split '.' domain)[1]? = some (specTopLabel domain) := by
  rw [split_eq, if_pos h, split_eq]
  simp [specTopLabel]

theorem split_get_one_none (domain : GoString) (h : '.' ∉ domain) :
    (split '.' domain)[1]? = none := by
  rw [split_eq, if_neg h]
  simp

/-! ## Lemmas on the lookup of a record without marker -/

theorem scrapeLoop_skip (env : Env) (zone : Zone) (zones : List Zone) (s : Scrape)
    (hl : isLatinDomain zone.Name = false) :
    scrapeLoop env (zone :: zones) s = scrapeLoop env zones s := by
  simp [scrapeLoop, hl]

theorem scrapeLoop_value (env : Env) (zone : Zone) (zones : List Zone) (s : Scrape)
    (t : Int) (n : Nat) (hl : isLatinDomain zone.Name = true)
    (h : getExpiryTime env zone.Name = ⟨.value t, n⟩) :
    scrapeLoop env (zone :: zones) s = scrapeLoop env zones
      { s with body := s.body ++ metricLine zone.Name t, slept := s.slept + n } := by
  simp [scrapeLoop, hl, h]

theorem scrapeLoop_panic (env : Env) (zone : Zone) (zones : List Zone) (s : Scrape)
    (n : Nat) (hl : isLatinDomain zone.Name = true)
    (h : getExpiryTime env zone.Name = ⟨.panic, n⟩) :
    scrapeLoop env (zone :: zones) s = { s with slept := s.slept + n, panicked := true } := by
  simp [scrapeLoop, hl, h]

/-! ## The calendar of package `time` against the calendar counted by hand -/

theorem parseOutput_ne_panic (out : GoString) : (parseOutput out).outcome ≠ .panic := by
  unfold parseOutput
  split <;> simp

theorem lookup_ne_panic (env : Env) (cmd : WhoisCmd) : (cmd.lookup env).outcome ≠ .panic := by
  unfold WhoisCmd.lookup
  split
  · simp
  · exact parseOutput_ne_panic _

theorem getExpiryTime_ne_panic (env : Env) (domain : GoString) (h : '.' ∈ domain) :
    (getExpiryTime env domain).outcome ≠ .panic := by
  simp only [getExpiryTime, split_get_one domain h]
  exact lookup_ne_panic _ _

theorem getExpiryTime_panic (env : Env) (domain : GoString) (h : '.' ∉ domain) :
    getExpiryTime env domain = ⟨.panic, 0⟩ := by
  simp only [getExpiryTime, split_get_one_none domain h]

/-- The seconds slept by a call: one after a timestamp was parsed, none on
the other paths. -/
theorem getExpiryTime_slept (env : Env) (domain : GoString) :
    (getExpiryTime env domain).slept =
      match (getExpiryTime env domain).outcome with
      | .value _ => 1
      | _ => 0 := by
  unfold getExpiryTime
  split
  · rfl
  · unfold WhoisCmd.lookup
    split
    · rfl
    · unfold parseOutput
      split <;> rfl

/-- C1: a domain with a character above U+00FF makes `isLatinDomain` return
false, and the loop of the handler then goes on to the next zone with its
state unchanged, whatever the WHOIS service is (no lookup, no metric line, no
logged failure, no pause), so a scrape of that zone alone does nothing;
conversely a domain whose characters are all at most U+00FF makes
`isLatinDomain` return true. -/
theorem non_latin_domain_is_skipped (domain : GoString) :
    ((∃ c ∈ domain, c.toNat > 0xFF) →
      isLatinDomain domain = false ∧
      ∀ (env : Env) (zone : Zone) (zones : List Zone) (s : Scrape), zone.Name = domain →
        scrapeLoop env (zone :: zones) s = scrapeLoop env zones s ∧
        metricsHandler env (some [zone]) = Scrape.start) ∧
    ((∀ c ∈ domain, c.toNat ≤ 0xFF) → isLatinDomain domain = true) := by
  refine ⟨?_, fun h => (isLatinDomain_eq_true_iff domain).2 h⟩
  rintro ⟨c, hc, hgt⟩
  have hf : isLatinDomain domain = false := by
    cases hb : isLatinDomain domain with
    | false => rfl
    | true =>
      have := (isLatinDomain_eq_true_iff domain).1 hb c hc
      simp only [maxLatin1] at this
      omega
  refine ⟨hf, fun env zone zones s hz => ?_⟩
  subst hz
  exact ⟨scrapeLoop_skip env zone zones s hf, by
    simp only [metricsHandler]; rw [scrapeLoop_skip env zone [] _ hf]; rfl⟩

/-- C1 at `测试.com` (filtered) and `b.ru` (kept). -/
theorem non_latin_domain_example :
    isLatinDomain "测试.com".toList = false ∧
    metricsHandler exampleEnv (some [zoneNamed "测试.com"]) = Scrape.start ∧
    isLatinDomain "b.ru".toList = true :=
  have h := (non_latin_domain_is_skipped "测试.com".toList).1 ⟨'测', by decide, by decide⟩
  ⟨h.1, (h.2 exampleEnv (zoneNamed "测试.com") [] Scrape.start rfl).2,
    (non_latin_domain_is_skipped "b.ru".toList).2 (by decide)⟩

/-- C2: for a domain with at least one `.`, the piece `strings.Split(domain,
".")[1]` that `getExpiryTime` switches on is the top-level label of the
specification (the token after the first `.`); the command is the paid-till
one (`grep 'paid-till'`, `$2`) exactly when that label is `ru`, and the
standard one (`grep 'Registry Expiry Date'`, `$NF`) for every other label. -/
theorem resolver_selects_by_spec_label (env : Env) (domain : GoString) (hdot : '.' ∈ domain) :
    (split '.' domain)[1]? = some (specTopLabel domain) ∧
    getExpiryTime env domain = (whoisCmd (specTopLabel domain) domain).lookup env ∧
    (whoisCmd (specTopLabel domain) domain = ⟨domain, paidTillMarker, .second⟩ ↔
      specTopLabel domain = "ru".toList) ∧
    (specTopLabel domain ≠ "ru".toList →
      whoisCmd (specTopLabel domain) domain = ⟨domain, registryExpiryMarker, .last⟩) := by
  have h1 := split_get_one domain hdot
  refine ⟨h1, ?_, ?_, ?_⟩
  · simp only [getExpiryTime, h1]
  · unfold whoisCmd
    by_cases h : specTopLabel domain = "ru".toList
    · rw [if_pos h]
      exact ⟨fun _ => h, fun _ => rfl⟩
    · rw [if_neg h]
      exact ⟨fun e => (by cases e), fun e => absurd e h⟩
  · show specTopLabel domain ≠ "ru".toList → _
    intro h
    unfold whoisCmd
    rw [if_neg h]

/-- C2 at `b.ru` (label `ru`) and `example.co.uk` (label `co`). -/
theorem resolver_example :
    (split '.' "b.ru".toList)[1]? = some "ru".toList ∧
    whoisCmd (specTopLabel "b.ru".toList) "b.ru".toList =
      ⟨"b.ru".toList, paidTillMarker, .second⟩ ∧
    (split '.' "example.co.uk".toList)[1]? = some "co".toList ∧
    whoisCmd (specTopLabel "example.co.uk".toList) "example.co.uk".toList =
      ⟨"example.co.uk".toList, registryExpiryMarker, .last⟩ :=
  have h1 := resolver_selects_by_spec_label exampleEnv "b.ru".toList (by decide)
  have h2 := resolver_selects_by_spec_label exampleEnv "example.co.uk".toList (by decide)
  ⟨h1.1, h1.2.2.1.2 (by decide), h2.1, h2.2.2.2 (by decide)⟩

/-- C3 (the code departs from the claim): a domain without `.` passes the
Latin filter, and `getExpiryTime` then panics at `strings.Split(domain,
".")[1]` instead of returning an error; this holds for every such domain, the
empty one included, and for no domain that holds a `.`.  In a scrape of
`localhost` and `a.com` the handler is unwound at `localhost`, and `a.com`,
whose lookup succeeds on its own, is never processed. -/
theorem dotless_domain_panics :
    (∀ (env : Env) (domain : GoString), '.' ∉ domain →
      getExpiryTime env domain = ⟨.panic, 0⟩) ∧
    (∀ (env : Env) (domain : GoString), '.' ∈ domain →
      (getExpiryTime env domain).outcome ≠ .panic) ∧
    isLatinDomain "localhost".toList = true ∧
    getExpiryTime exampleEnv "localhost".toList = ⟨.panic, 0⟩ ∧
    isLatinDomain [] = true ∧
    getExpiryTime exampleEnv [] = ⟨.panic, 0⟩ ∧
    metricsHandler exampleEnv (some [zoneNamed "localhost", zoneNamed "a.com"]) =
      ⟨[], [], 0, true⟩ ∧
    (metricsHandler exampleEnv (some [zoneNamed "a.com"])).body =
      "domain_expiry_time\x7bdomain=\"a.com\"\x7d 1894665600\n".toList :=
  ⟨getExpiryTime_panic, getExpiryTime_ne_panic, by decide⟩

/-- C8 (the code departs from the claim): in the list `localhost`, `a.com`
the zone `a.com` passes the Latin filter and its lookup succeeds with
1894665600, so the body of the claim holds its line; the handler, however, is
unwound by the panic of `getExpiryTime` at `localhost` and has written
nothing.  Without `localhost` the line is written, and for the zones `a.com`,
`b.ru` and `测试.com` of the claim the body is the two lines, in input
order. -/
theorem zone_after_panic_is_lost :
    isLatinDomain "a.com".toList = true ∧
    getExpiryTime exampleEnv "a.com".toList = ⟨.value 1894665600, 1⟩ ∧
    (metricsHandler exampleEnv (some [zoneNamed "localhost", zoneNamed "a.com"])).body = [] ∧
    (metricsHandler exampleEnv
      (some [zoneNamed "localhost", zoneNamed "a.com"])).panicked = true ∧
    (metricsHandler exampleEnv (some [zoneNamed "a.com"])).body =
      "domain_expiry_time\x7bdomain=\"a.com\"\x7d 1894665600\n".toList ∧
    (metricsHandler exampleEnv
      (some [zoneNamed "a.com", zoneNamed "b.ru", zoneNamed "测试.com"])).body =
      ("domain_expiry_time\x7bdomain=\"a.com\"\x7d 1894665600\n" ++
        "domain_expiry_time\x7bdomain=\"b.ru\"\x7d 1843430400\n").toList := by
  decide

/-- C9 (the code departs from the claim): a call of `getExpiryTime` pauses
for one second only on the path that returns a timestamp; both error returns
come before `time.Sleep`.  With a WHOIS service that prints nothing, a scrape
of three domains reaches the WHOIS step three times, logs three parse errors
and does not pause at all; an error of the command and a date that is not in
the RFC 3339 form do not pause either.  A scrape of two domains that resolve
pauses twice. -/
theorem failed_lookups_are_not_paced :
    (∀ (env : Env) (domain : GoString),
      (getExpiryTime env domain).slept =
        match (getExpiryTime env domain).outcome with
        | .value _ => 1
        | _ => 0) ∧
    getExpiryTime silentEnv "a.com".toList = ⟨.error .parse, 0⟩ ∧
    getExpiryTime brokenEnv "a.com".toList = ⟨.error .exec, 0⟩ ∧
    getExpiryTime (envOf fun _ => "Registry Expiry Date: 15-Jan-2030\n".toList)
      "a.com".toList = ⟨.error .parse, 0⟩ ∧
    metricsHandler silentEnv (some [zoneNamed "a.com", zoneNamed "b.com", zoneNamed "c.com"]) =
      ⟨[], [("a.com".toList, .parse), ("b.com".toList, .parse), ("c.com".toList, .parse)],
        0, false⟩ ∧
    (metricsHandler exampleEnv (some [zoneNamed "a.com", zoneNamed "b.ru"])).slept = 2 :=
  ⟨getExpiryTime_slept, by decide⟩

/-- C10: the convention follows the second piece of `strings.Split(domain,
".")` and nothing else: a domain of three or more pieces whose last piece is
`ru` and whose second piece is not `ru` is looked up with the standard
command, and a domain whose second piece is `ru` is looked up with the
paid-till command, whatever its last piece is. -/
theorem convention_follows_second_segment (env : Env) (domain : GoString) :
    (3 ≤ (split '.' domain).length → (split '.' domain).getLast? = some "ru".toList →
      (split '.' domain)[1]? ≠ some "ru".toList →
      getExpiryTime env domain =
        (⟨domain, registryExpiryMarker, .last⟩ : WhoisCmd).lookup env) ∧
    ((split '.' domain)[1]? = some "ru".toList →
      getExpiryTime env domain = (⟨domain, paidTillMarker, .second⟩ : WhoisCmd).lookup env) := by
  constructor
  · intro hlen _ hsecond
    cases h : (split '.' domain)[1]? with
    | none =>
      rw [List.getElem?_eq_none_iff] at h
      omega
    | some tld =>
      have hne : tld ≠ "ru".toList := fun e => hsecond (by rw [h, e])
      simp only [getExpiryTime, h, whoisCmd]
      rw [if_neg hne]
  · intro h
    simp only [getExpiryTime, h, whoisCmd, if_true]

/-- C10 at `a.b.ru` (standard command) and `a.ru.com` (paid-till command). -/
theorem convention_example :
    split '.' "a.b.ru".toList = ["a".toList, "b".toList, "ru".toList] ∧
    getExpiryTime exampleEnv "a.b.ru".toList =
      (⟨"a.b.ru".toList, registryExpiryMarker, .last⟩ : WhoisCmd).lookup exampleEnv ∧
    split '.' "a.ru.com".toList = ["a".toList, "ru".toList, "com".toList] ∧
    getExpiryTime exampleEnv "a.ru.com".toList =
      (⟨"a.ru.com".toList, paidTillMarker, .second⟩ : WhoisCmd).lookup exampleEnv :=
  ⟨by decide,
    (convention_follows_second_segment exampleEnv "a.b.ru".toList).1
      (by decide) (by decide) (by decide),
    by decide,
    (convention_follows_second_segment exampleEnv "a.ru.com".toList).2 (by decide)⟩

end DomainExporter
